import Mathlib

/-!
Verification development for the anymc-installer core: the dependency
resolution, concurrent artifact acquisition, and launch-bundle assembly
pipeline of the Quilt install path, together with the installer facade,
the client profile generator and the launcher-profile registry patch.

Rust strings are embedded as `List Char` where the code works with
characters and substrings, and as `List Nat` (UTF-8 byte values) where the
code operates on raw bytes (manifest line wrapping in `create_launch_jar`).
Fallible operations return `Option`/`Except`; filesystem and network side
effects are made explicit as effect traces parameterised by oracles for
the pre-existing filesystem and the network responses.
-/

namespace AnyMc

/-! ## Artifact resolver (`download_library::split_artifact`, quilt.rs) -/

/-- Splits off the part of `s` before the first occurrence of `sep`,
returning it together with the rest after the separator; `none` when
`sep` does not occur.  This is the building block used to embed Rust's
`splitn(3, ':')` followed by three `next()` calls: the overall result of
`split_artifact` is `none` exactly when a `next()` would have been. -/
def splitFirst (sep : Char) : List Char → Option (List Char × List Char)
  | [] => none
  | c :: rest =>
    if c = sep then some ([], rest)
    else
      match splitFirst sep rest with
      | none => none
      | some (a, b) => some (c :: a, b)

/-- `group.replace('.', "/")` character map. -/
def dotToSlash (c : Char) : Char := if c = '.' then '/' else c

/-- Embeds `split_artifact` from `download_library` in quilt.rs: split the
coordinate into group, name and version on the first two `:`, replace `.`
with `/` in the group, and build
`group/name/version/name-version.jar`. -/
def split_artifact (s : List Char) : Option (List Char) :=
  match splitFirst ':' s with
  | none => none
  | some (group, rest) =>
    match splitFirst ':' rest with
    | none => none
    | some (name, version) =>
      some (group.map dotToSlash ++ '/' :: name ++ '/' :: version
              ++ '/' :: name ++ '-' :: version ++ ".jar".data)

/-- `quilt::MAVEN`. -/
def QUILT_MAVEN : List Char := "https://maven.quiltmc.org/repository/release".data

/-- `fabric::MAVEN`. -/
def FABRIC_MAVEN : List Char := "https://maven.fabricmc.net/".data

/-- The mirror-selection `match` in `download_library`: the Quilt maven is
used exactly when the relative path starts with `org/quiltmc`, the Fabric
maven otherwise; the URL is `base + "/" + raw_path`. -/
def maven_url (raw_path : List Char) : List Char :=
  if ("org/quiltmc".data).isPrefixOf raw_path then QUILT_MAVEN ++ '/' :: raw_path
  else FABRIC_MAVEN ++ '/' :: raw_path

/-- The pure prefix of `download_library`: relative path plus remote URL. -/
def resolve_library (name : List Char) : Option (List Char × List Char) :=
  (split_artifact name).map (fun p => (p, maven_url p))

/-- Extracts the artifact (second) component of a `group:artifact:version`
coordinate, as `splitn(3, ':')` would produce it. -/
def artifact_name (s : List Char) : Option (List Char) :=
  match splitFirst ':' s with
  | none => none
  | some (_, rest) =>
    match splitFirst ':' rest with
    | none => none
    | some (name, _) => some name

/-! ## Library filtering (the hack-fix `retain` in quilt.rs) -/

/-- `Library { name, url }` from quilt.rs. -/
structure Library where
  name : List Char
  url : List Char
deriving DecidableEq

/-- The hack-fix in `install_client`/`install_server`:
`libraries.retain(|lib| !lib.name.starts_with("org.quiltmc:hashed"))`. -/
def filter_libraries (libs : List Library) : List Library :=
  libs.filter (fun lib => !(("org.quiltmc:hashed".data).isPrefixOf lib.name))

/-! ## Manifest line wrapping (`create_launch_jar`, quilt.rs)

The Rust code builds `class_path = format!("Class-Path: {}", paths.join(" "))`
as a UTF-8 `String`, calls `class_path.split_at(72)` (a byte index that
panics when 72 is past the end or not a character boundary), writes the head,
and then writes each 71-byte chunk of `tail.as_bytes()` prefixed with one
space, decoding the chunk with `String::from_utf8_lossy`.  We embed the
string at the byte level. -/

/-- UTF-8 continuation byte test (`b & 0xC0 == 0x80`). -/
def isUtf8Cont (b : Nat) : Bool := decide (128 ≤ b ∧ b < 192)

/-- Rust `str::is_char_boundary` on the byte list `s` at index `i`. -/
def is_char_boundary (s : List Nat) (i : Nat) : Bool :=
  if i = 0 then true
  else if i = s.length then true
  else if h : i < s.length then !isUtf8Cont (s.get ⟨i, h⟩)
  else false

/-- Rust `str::split_at`: `none` models the panic on an out-of-range or
non-boundary index. -/
def string_split_at (s : List Nat) (i : Nat) : Option (List Nat × List Nat) :=
  if is_char_boundary s i then some (s.take i, s.drop i) else none

/-- `slice::chunks(71)` over the tail bytes, structurally recursive on a
fuel argument so that it reduces in the kernel; `chunks71` supplies fuel
equal to the list length, which always suffices since every step consumes
at least one byte.  The fuel-exhausted branch returns the remaining bytes
as one chunk, keeping concatenation exact in every branch. -/
def chunks71Go : Nat → List Nat → List (List Nat)
  | _, [] => []
  | 0, l => [l]
  | fuel + 1, b :: rest => (b :: rest.take 70) :: chunks71Go fuel (rest.drop 70)

/-- `tail.as_bytes().chunks(71)`. -/
def chunks71 (l : List Nat) : List (List Nat) := chunks71Go l.length l

/-- UTF-8 encoding of U+FFFD, the replacement character emitted by
`String::from_utf8_lossy` for invalid input. -/
def replacementBytes : List Nat := [0xEF, 0xBF, 0xBD]

/-- Valid range of the second byte of a three-byte UTF-8 sequence. -/
def utf8SecondOk3 (b b2 : Nat) : Bool :=
  if b = 0xE0 then decide (0xA0 ≤ b2 ∧ b2 ≤ 0xBF)
  else if b = 0xED then decide (0x80 ≤ b2 ∧ b2 ≤ 0x9F)
  else isUtf8Cont b2

/-- Valid range of the second byte of a four-byte UTF-8 sequence. -/
def utf8SecondOk4 (b b2 : Nat) : Bool :=
  if b = 0xF0 then decide (0x90 ≤ b2 ∧ b2 ≤ 0xBF)
  else if b = 0xF4 then decide (0x80 ≤ b2 ∧ b2 ≤ 0x8F)
  else isUtf8Cont b2

/-- Models the byte output of Rust's `String::from_utf8_lossy`: valid UTF-8
sequences are copied through, each maximal invalid subpart is replaced by
U+FFFD.  Structurally recursive on a fuel argument so it reduces in the
kernel; every step consumes at least one byte, so fuel equal to the list
length (supplied by `utf8Lossy`) always suffices and the fuel-exhausted
branch (which returns the input) is unreachable. -/
def utf8LossyGo : Nat → List Nat → List Nat
  | _, [] => []
  | 0, l => l
  | fuel + 1, b :: rest =>
    if b < 0x80 then b :: utf8LossyGo fuel rest
    else if 0xC2 ≤ b ∧ b ≤ 0xDF then
      match rest with
      | [] => replacementBytes
      | b2 :: rest2 =>
        if isUtf8Cont b2 then b :: b2 :: utf8LossyGo fuel rest2
        else replacementBytes ++ utf8LossyGo fuel (b2 :: rest2)
    else if 0xE0 ≤ b ∧ b ≤ 0xEF then
      match rest with
      | [] => replacementBytes
      | b2 :: rest2 =>
        if utf8SecondOk3 b b2 then
          match rest2 with
          | [] => replacementBytes
          | b3 :: rest3 =>
            if isUtf8Cont b3 then b :: b2 :: b3 :: utf8LossyGo fuel rest3
            else replacementBytes ++ utf8LossyGo fuel (b3 :: rest3)
        else replacementBytes ++ utf8LossyGo fuel (b2 :: rest2)
    else if 0xF0 ≤ b ∧ b ≤ 0xF4 then
      match rest with
      | [] => replacementBytes
      | b2 :: rest2 =>
        if utf8SecondOk4 b b2 then
          match rest2 with
          | [] => replacementBytes
          | b3 :: rest3 =>
            if isUtf8Cont b3 then
              match rest3 with
              | [] => replacementBytes
              | b4 :: rest4 =>
                if isUtf8Cont b4 then b :: b2 :: b3 :: b4 :: utf8LossyGo fuel rest4
                else replacementBytes ++ utf8LossyGo fuel (b4 :: rest4)
            else replacementBytes ++ utf8LossyGo fuel (b3 :: rest3)
        else replacementBytes ++ utf8LossyGo fuel (b2 :: rest2)
    else replacementBytes ++ utf8LossyGo fuel rest

/-- `String::from_utf8_lossy` at byte level. -/
def utf8Lossy (l : List Nat) : List Nat := utf8LossyGo l.length l

/-- The bytes of an ASCII `&str` literal. -/
def asciiBytes (s : List Char) : List Nat := s.map Char.toNat

/-- `format!("Class-Path: {}", relative_paths.join(" "))` at byte level. -/
def class_path_line (paths : List (List Nat)) : List Nat :=
  asciiBytes "Class-Path: ".data ++ List.intercalate [32] paths

/-- The wrapping step of `create_launch_jar`: `split_at(72)` (panic modelled
as `none`), head line, then one line of a single space followed by the lossy
decoding of each 71-byte chunk of the tail. -/
def wrap_class_path (cp : List Nat) : Option (List (List Nat)) :=
  match string_split_at cp 72 with
  | none => none
  | some (head, tail) => some (head :: (chunks71 tail).map (fun c => 32 :: utf8Lossy c))

/-- The manifest body of `create_launch_jar` as a list of lines: the two
header lines followed by the wrapped `Class-Path:` lines. -/
def manifest_lines (main : List Nat) (cp : List Nat) : Option (List (List Nat)) :=
  (wrap_class_path cp).map
    (fun ls => asciiBytes "Manifest-Version: 1.0".data
      :: (asciiBytes "Main-Class: ".data ++ main) :: ls)

/-! ## Filesystem/network effects

Side effects are made explicit: every model of an effectful Rust function
returns its result together with the ordered list of effects it performed,
reading the pre-existing filesystem and the network through oracles
(`fs : List Char → Bool` for `Path::exists`, `net : List Char → Option _`
for a GET, `none` modelling a transport failure or non-success status). -/

/-- One observable side effect of the installer. -/
inductive FsEffect where
  | removeDirAll : List Char → FsEffect
  | createDirAll : List Char → FsEffect
  | createFile : List Char → FsEffect
  | httpGet : List Char → FsEffect
  | writeFile : List Char → FsEffect
  | writeProfileJson : List Char → List Library → FsEffect
  | generateProfile : FsEffect
deriving DecidableEq

/-- `PathBuf::join` / `push` with a relative component. -/
def pathJoin (dir p : List Char) : List Char := dir ++ '/' :: p

/-- `Path::parent`: everything before the last `/`; `none` when there is no
separator (the code `expect`s on that case). -/
def pathParent (p : List Char) : Option (List Char) :=
  match splitFirst '/' p.reverse with
  | none => none
  | some (_, rest) => some rest.reverse

/-! ## Per-item download (`download_library`, quilt.rs) -/

/-- Embeds `download_library`: resolve the coordinate (an unparsable
coordinate is an error with no effects), pick the mirror, and then either
return the already-cached path with no effects, or create the parent
directories, GET the URL (a failed response is an error after the GET),
and write the body to the destination. -/
def download_library (fs : List Char → Bool) (net : List Char → Option (List Nat))
    (dir : List Char) (lib : Library) : Option (List Char) × List FsEffect :=
  match split_artifact lib.name with
  | none => (none, [])
  | some raw_path =>
    let url := maven_url raw_path
    let path := pathJoin dir raw_path
    if fs path then (some path, [])
    else
      match pathParent path with
      | none => (none, [])
      | some parent =>
        match net url with
        | none => (none, [FsEffect.createDirAll parent, FsEffect.httpGet url])
        | some _ => (some path,
            [FsEffect.createDirAll parent, FsEffect.httpGet url, FsEffect.writeFile path])

/-! ## Version records, loader variants, install request -/

/-- `minecraft::Version`. -/
structure MinecraftVersion where
  version : List Char
  stable : Bool

/-- `quilt::Version`. -/
structure QuiltVersion where
  separator : List Char
  build : Nat
  maven : List Char
  version : List Char

/-- `fabric::Version`. -/
structure FabricVersion where
  separator : List Char
  build : Int
  maven : List Char
  version : List Char
  stable : Bool

/-- `loaders::Side`. -/
inductive Side where
  | client
  | server
deriving DecidableEq

/-- `loaders::LoaderVersion`. -/
inductive LoaderVersion where
  | fabric : FabricVersion → LoaderVersion
  | forge : Bool → LoaderVersion
  | quilt : QuiltVersion → LoaderVersion

/-- `LoaderVersion::name`. -/
def LoaderVersion.name : LoaderVersion → List Char
  | .fabric _ => "fabric-loader".data
  | .forge _ => "forge".data
  | .quilt _ => "quilt-loader".data

/-- The `Display` of the version carried by a `LoaderVersion`. -/
def LoaderVersion.versionString : LoaderVersion → List Char
  | .fabric v => v.version
  | .forge b => if b then "true".data else "false".data
  | .quilt v => v.version

/-- `loaders::Install<V>`. -/
structure Install (V : Type) where
  version : V
  side : Side
  dir : List Char
  minecraft : MinecraftVersion
  generate : Bool

/-! ## Client install (`install_client`, quilt.rs) -/

/-- `quilt::ClientProfile`, restricted to the field the installer inspects;
the remaining fields are serialized back untouched. -/
structure ClientProfile where
  libraries : List Library

/-- `format!("quilt-loader-{}-{}", install.version, install.minecraft)`. -/
def quilt_profile_name (v : QuiltVersion) (mc : MinecraftVersion) : List Char :=
  "quilt-loader-".data ++ v.version ++ '-' :: mc.version

/-- The client profile-document URL built in `install_client`. -/
def client_profile_url (mc : MinecraftVersion) (v : QuiltVersion) : List Char :=
  "https://meta.quiltmc.org/v3/versions/loader/".data ++ mc.version
    ++ '/' :: v.version ++ "/profile/json".data

/-- Embeds `install_client`: delete any existing `versions/<id>` directory,
recreate it, create the placeholder jar and the (empty) json file, then
fetch the profile document (`fetch = none` models a network or decode
failure), filter the libraries, write the serialized profile into the json
file, and optionally generate the launcher profile. -/
def install_client (fs : List Char → Bool) (fetch : Option ClientProfile)
    (i : Install QuiltVersion) : Except Unit Unit × List FsEffect :=
  let profile_name := quilt_profile_name i.version i.minecraft
  let profile_dir := pathJoin (pathJoin i.dir "versions".data) profile_name
  let json_path := pathJoin profile_dir (profile_name ++ ".json".data)
  let pre :=
    (if fs profile_dir then [FsEffect.removeDirAll profile_dir] else [])
      ++ [FsEffect.createDirAll profile_dir,
          FsEffect.createFile (pathJoin profile_dir (profile_name ++ ".jar".data)),
          FsEffect.createFile json_path,
          FsEffect.httpGet (client_profile_url i.minecraft i.version)]
  match fetch with
  | none => (.error (), pre)
  | some profile =>
    (.ok (), pre
      ++ [FsEffect.writeProfileJson json_path (filter_libraries profile.libraries)]
      ++ (if i.generate then [FsEffect.generateProfile] else []))

/-! ## Installer facade (`loaders::install`) -/

/-- `fabric::install`: a no-op stub returning `Ok(())`. -/
def fabric_install (_i : Install FabricVersion) : Except Unit Unit × List FsEffect :=
  (.ok (), [])

/-- `forge::install`: a no-op stub returning `Ok(())`. -/
def forge_install (_i : Install Bool) : Except Unit Unit × List FsEffect :=
  (.ok (), [])

/-- Embeds `loaders::install`: bail out with a validation error when the
destination directory does not exist, otherwise dispatch on the loader
variant.  The Quilt installer needs network and filesystem oracles of its
own, so the facade takes it as an argument; the Fabric and Forge stubs are
the concrete functions above. -/
def loaders_install (fs : List Char → Bool) (loader : LoaderVersion) (side : Side)
    (dir : List Char) (mc : MinecraftVersion) (generate : Bool)
    (quiltInstaller : Install QuiltVersion → Except Unit Unit × List FsEffect) :
    Except Unit Unit × List FsEffect :=
  if fs dir then
    match loader with
    | .fabric v => fabric_install ⟨v, side, dir, mc, generate⟩
    | .forge b => forge_install ⟨b, side, dir, mc, generate⟩
    | .quilt v => quiltInstaller ⟨v, side, dir, mc, generate⟩
  else (.error (), [])

/-! ## Launcher profile registry (`utils::generate_profile`) -/

/-- `utils::LaunchProfiles`, with the profile descriptors and the opaque
settings value kept abstract. -/
structure LaunchProfiles (P S : Type) where
  profiles : List (List Char × P)
  settings : S
  version : Nat

/-- `HashMap::insert` observed through an association list: the first
binding of the key is overwritten in place, a missing key is appended. -/
def insertProfile {P : Type} (k : List Char) (v : P) :
    List (List Char × P) → List (List Char × P)
  | [] => [(k, v)]
  | (k', v') :: rest =>
    if k = k' then (k, v) :: rest else (k', v') :: insertProfile k v rest

/-- `HashMap` lookup on the association list. -/
def lookupProfile {P : Type} (k : List Char) : List (List Char × P) → Option P
  | [] => none
  | (k', v') :: rest => if k = k' then some v' else lookupProfile k rest

/-- `format!("{}-{}-{}", version.name(), version, minecraft)`. -/
def generate_profile_name (version : LoaderVersion) (mc : MinecraftVersion) : List Char :=
  version.name ++ '-' :: version.versionString ++ '-' :: mc.version

/-- The pure registry patch inside `utils::generate_profile`: insert the
descriptor under the computed profile id, leaving settings and schema
version untouched; the whole value is then serialized back. -/
def generate_profile_patch {P S : Type} (reg : LaunchProfiles P S)
    (name : List Char) (prof : P) : LaunchProfiles P S :=
  { reg with profiles := insertProfile name prof reg.profiles }

/-! ## Bounded-parallelism downloader (`buffer_unordered(8)` in
`install_server`, quilt.rs)

`stream::iter(libs).map(dl).buffer_unordered(8).try_collect()` keeps at
most 8 futures in flight and yields each result *as it completes*.  The
nondeterministic completion order is made explicit as a schedule: at every
step the head of `sched` picks (mod the number of in-flight items) which
in-flight item completes next, after the window has been refilled from the
pending input.  Fuel-structural so that it reduces in the kernel; fuel one
larger than the input length always suffices since every step yields one
item. -/

/-- One completion step of `buffer_unordered`. -/
def runBUGo {α β : Type} (f : α → β) (n : Nat) :
    Nat → List Nat → List α → List α → List β
  | 0, _, _, _ => []
  | fuel + 1, sched, pending, inflight =>
    match inflight ++ pending.take (n - inflight.length) with
    | [] => []
    | b :: rest =>
      let i := sched.headD 0 % (b :: rest).length
      f ((b :: rest).get ⟨i, Nat.mod_lt _ (Nat.succ_pos _)⟩)
        :: runBUGo f n fuel sched.tail (pending.drop (n - inflight.length))
            ((b :: rest).eraseIdx i)

/-- `buffer_unordered(n)` over input `xs` under completion schedule
`sched`, producing the completion-ordered list of results. -/
def buffer_unordered {α β : Type} (n : Nat) (f : α → β) (xs : List α)
    (sched : List Nat) : List β :=
  runBUGo f n (xs.length + 1) sched xs []

/-! ## Concrete inputs used by witnesses and counterexamples -/

/-- A 200-byte ASCII `Class-Path: ` string (12 header bytes plus a
188-byte path), the literal case of the manifest-wrapping property. -/
def exampleClassPath : List Nat := class_path_line [List.replicate 188 97]

/-- A 73-byte class-path string whose byte 72 falls inside the two-byte
UTF-8 encoding of `é` (0xC3 0xA9 at byte offsets 71 and 72). -/
def multiByteClassPath : List Nat :=
  asciiBytes ("Class-Path: ".data ++ List.replicate 59 'a') ++ [0xC3, 0xA9]

/-- Destination directory for the cache-hit witness. -/
def cacheDir : List Char := "/srv/mc/libraries".data

/-- Library for the cache-hit witness. -/
def cacheLib : Library := ⟨"org.quiltmc:quilt-loader:0.17.0".data, []⟩

/-- Resolved relative path of `cacheLib`. -/
def cacheRaw : List Char := "org/quiltmc/quilt-loader/0.17.0/quilt-loader-0.17.0.jar".data

/-- Filesystem oracle on which exactly the resolved path of `cacheLib`
already exists. -/
def cacheFs : List Char → Bool := fun p => decide (p = pathJoin cacheDir cacheRaw)

/-- Network oracle that fails every request: a cache hit must never
consult it. -/
def cacheNet : List Char → Option (List Nat) := fun _ => none

/-- First artifact of the completion-order counterexample. -/
def libA : Library := ⟨"org.quiltmc:quilt-loader:2.0".data, []⟩

/-- Second artifact of the completion-order counterexample. -/
def libB : Library := ⟨"net.fabricmc:intermediary:1.19.2".data, []⟩

/-- The per-item result of `download_library` under an all-cached
filesystem, as the pure per-item function driven by `buffer_unordered`. -/
def dlPure (lib : Library) : Option (List Char) :=
  (download_library (fun _ => true) (fun _ => none) "/srv".data lib).1

/-- Minecraft version of the client-install witness. -/
def clientMc : MinecraftVersion := ⟨"1.19.2".data, true⟩

/-- Quilt loader version of the client-install witness. -/
def clientQuiltV : QuiltVersion := ⟨".".data, 1, "org.quiltmc:quilt-loader:0.17.0".data, "0.17.0".data⟩

/-- The install request of the client-install witness. -/
def clientInstall : Install QuiltVersion :=
  ⟨clientQuiltV, Side.client, "/home/user/.minecraft".data, clientMc, true⟩

/-- Filesystem oracle on which every path (in particular the old profile
directory) exists. -/
def clientFs : List Char → Bool := fun _ => true

/-! ## Helper lemmas -/

theorem splitFirst_of_not_mem (sep : Char) (s : List Char) (h : sep ∉ s) :
    splitFirst sep s = none := by
  induction s with
  | nil => rfl
  | cons c rest ih =>
    have hc : ¬ (c = sep) := by intro hcs; exact h (by simp [hcs])
    simp only [splitFirst, if_neg hc]
    rw [ih (fun hm => h (List.mem_cons_of_mem c hm))]

theorem splitFirst_eq_some_decomp (sep : Char) :
    ∀ (s a b : List Char), splitFirst sep s = some (a, b) → s = a ++ sep :: b ∧ sep ∉ a := by
  intro s
  induction s with
  | nil => intro a b h; simp [splitFirst] at h
  | cons c rest ih =>
    intro a b h
    by_cases hc : c = sep
    · subst hc
      simp only [splitFirst, if_true, eq_self_iff_true, Option.some_inj, Prod.mk.injEq] at h
      obtain ⟨ha, hb⟩ := h
      subst ha
      subst hb
      exact ⟨rfl, by simp⟩
    · simp only [splitFirst, if_neg hc] at h
      cases hrec : splitFirst sep rest with
      | none => rw [hrec] at h; simp at h
      | some ab =>
        rcases ab with ⟨a', b'⟩
        rw [hrec] at h
        simp only [Option.some_inj, Prod.mk.injEq] at h
        obtain ⟨ha, hb⟩ := h
        subst hb
        obtain ⟨hs, hmem⟩ := ih a' b' hrec
        subst hs
        refine ⟨?_, ?_⟩
        · rw [← ha]; simp
        · rw [← ha]
          intro hm
          rcases List.mem_cons.mp hm with h1 | h2
          · exact hc h1.symm
          · exact hmem h2

theorem splitFirst_append (sep : Char) (g rest : List Char) (hg : sep ∉ g) :
    splitFirst sep (g ++ sep :: rest) = some (g, rest) := by
  induction g with
  | nil => simp [splitFirst]
  | cons c gs ih =>
    have hc : ¬ (c = sep) := by intro hcs; exact hg (by simp [hcs])
    have hgs : sep ∉ gs := fun hm => hg (List.mem_cons_of_mem c hm)
    have hrec := ih hgs
    simp only [List.cons_append, splitFirst, if_neg hc]
    simp only [List.append_eq, hrec]

theorem chunks71Go_flatten (fuel : Nat) :
    ∀ l : List Nat, (chunks71Go fuel l).flatten = l := by
  induction fuel with
  | zero => intro l; cases l <;> simp [chunks71Go]
  | succ fuel ih =>
    intro l
    cases l with
    | nil => simp [chunks71Go]
    | cons b rest => simp [chunks71Go, ih]

theorem chunks71_flatten (l : List Nat) : (chunks71 l).flatten = l :=
  chunks71Go_flatten l.length l

theorem chunks71Go_length_le (fuel : Nat) :
    ∀ l : List Nat, l.length ≤ fuel → ∀ c ∈ chunks71Go fuel l, c.length ≤ 71 := by
  induction fuel with
  | zero =>
    intro l hl c hc
    have hnil : l = [] := List.eq_nil_of_length_eq_zero (Nat.le_zero.mp hl)
    subst hnil
    simp [chunks71Go] at hc
  | succ fuel ih =>
    intro l hl c hc
    cases l with
    | nil => simp [chunks71Go] at hc
    | cons b rest =>
      have hrest : rest.length ≤ fuel := by simp at hl; omega
      simp only [chunks71Go, List.mem_cons] at hc
      rcases hc with rfl | hc
      · have := List.length_take_le 70 rest
        simp
      · exact ih (rest.drop 70) (by simp; omega) c hc

theorem chunks71_length_le (l : List Nat) : ∀ c ∈ chunks71 l, c.length ≤ 71 :=
  chunks71Go_length_le l.length l le_rfl

theorem utf8LossyGo_ascii (fuel : Nat) :
    ∀ l : List Nat, (∀ b ∈ l, b < 128) → utf8LossyGo fuel l = l := by
  induction fuel with
  | zero => intro l _; cases l <;> simp [utf8LossyGo]
  | succ fuel ih =>
    intro l h
    cases l with
    | nil => simp [utf8LossyGo]
    | cons b rest =>
      have hb : b < 128 := h b (by simp)
      simp only [utf8LossyGo, hb, if_pos]
      rw [ih rest (fun x hx => h x (by simp [hx]))]

theorem utf8Lossy_ascii (l : List Nat) (h : ∀ b ∈ l, b < 128) : utf8Lossy l = l :=
  utf8LossyGo_ascii l.length l h

theorem get_cons_eraseIdx_perm {α : Type} (l : List α) (i : Fin l.length) :
    (l.get i :: l.eraseIdx i).Perm l := by
  induction l with
  | nil => exact absurd i.isLt (by simp)
  | cons a l ih =>
    rcases i with ⟨i, hi⟩
    cases i with
    | zero => simp [List.eraseIdx]
    | succ i =>
      have hi' : i < l.length := by simpa using hi
      have step : ((a :: l).get ⟨i + 1, hi⟩ :: (a :: l).eraseIdx (i + 1))
          = l.get ⟨i, hi'⟩ :: a :: l.eraseIdx i := by simp [List.eraseIdx]
      rw [step]
      exact (List.Perm.swap a (l.get ⟨i, hi'⟩) _).trans ((ih ⟨i, hi'⟩).cons a)

theorem runBUGo_perm {α β : Type} (f : α → β) (n : Nat) (hn : 0 < n) :
    ∀ (fuel : Nat) (sched : List Nat) (pending inflight : List α),
      pending.length + inflight.length < fuel →
      (runBUGo f n fuel sched pending inflight).Perm ((inflight ++ pending).map f) := by
  intro fuel
  induction fuel with
  | zero => intro _ _ _ h; exact absurd h (Nat.not_lt_zero _)
  | succ fuel ih =>
    intro sched pending inflight h
    rcases hsc : inflight ++ pending.take (n - inflight.length) with _ | ⟨b, rest⟩
    · have hinf : inflight = [] := (List.append_eq_nil.mp hsc).1
      have htake : pending.take (n - inflight.length) = [] := (List.append_eq_nil.mp hsc).2
      have hpend : pending = [] := by
        cases pending with
        | nil => rfl
        | cons p ps =>
          rw [hinf] at htake
          simp only [List.length_nil, Nat.sub_zero] at htake
          rcases n with _ | n
          · exact absurd hn (by omega)
          · simp [List.take_succ_cons] at htake
      subst hinf hpend
      simp [runBUGo, hsc]
    · have hlen : (b :: rest).length
          = inflight.length + (pending.take (n - inflight.length)).length := by
        rw [← hsc]; simp
      have hrun : runBUGo f n (fuel + 1) sched pending inflight
          = f ((b :: rest).get ⟨sched.headD 0 % (b :: rest).length,
                Nat.mod_lt _ (Nat.succ_pos _)⟩)
            :: runBUGo f n fuel sched.tail (pending.drop (n - inflight.length))
                ((b :: rest).eraseIdx (sched.headD 0 % (b :: rest).length)) := by
        rw [runBUGo, hsc]
      rw [hrun]
      have hi : sched.headD 0 % (b :: rest).length < (b :: rest).length :=
        Nat.mod_lt _ (Nat.succ_pos _)
      have hIH := ih sched.tail (pending.drop (n - inflight.length))
        ((b :: rest).eraseIdx (sched.headD 0 % (b :: rest).length)) (by
          have h1 : ((b :: rest).eraseIdx (sched.headD 0 % (b :: rest).length)).length + 1
              = (b :: rest).length := List.length_eraseIdx_add_one hi
          have h2 : (pending.drop (n - inflight.length)).length
              = pending.length - (n - inflight.length) := List.length_drop _ _
          have h3 : (pending.take (n - inflight.length)).length
              = min (n - inflight.length) pending.length := List.length_take _ _
          omega)
      refine (hIH.cons _).trans ?_
      have hperm1 : ((b :: rest).get ⟨sched.headD 0 % (b :: rest).length, hi⟩
            :: ((b :: rest).eraseIdx (sched.headD 0 % (b :: rest).length)
                ++ pending.drop (n - inflight.length))).Perm
          ((b :: rest) ++ pending.drop (n - inflight.length)) := by
        have := (get_cons_eraseIdx_perm (b :: rest)
          ⟨sched.headD 0 % (b :: rest).length, hi⟩).append_right
            (pending.drop (n - inflight.length))
        simpa using this
      have heq : (b :: rest) ++ pending.drop (n - inflight.length) = inflight ++ pending := by
        rw [← hsc, List.append_assoc, List.take_append_drop]
      have hstep : (f ((b :: rest).get ⟨sched.headD 0 % (b :: rest).length, hi⟩)
            :: (((b :: rest).eraseIdx (sched.headD 0 % (b :: rest).length)
                ++ pending.drop (n - inflight.length)).map f))
          = (((b :: rest).get ⟨sched.headD 0 % (b :: rest).length, hi⟩
              :: ((b :: rest).eraseIdx (sched.headD 0 % (b :: rest).length)
                  ++ pending.drop (n - inflight.length))).map f) := by simp
      rw [hstep, ← heq]
      exact hperm1.map f

theorem runBUGo_fifo {α β : Type} (f : α → β) (n : Nat) (hn : 0 < n) :
    ∀ (fuel : Nat) (pending inflight : List α),
      pending.length + inflight.length < fuel →
      runBUGo f n fuel [] pending inflight = (inflight ++ pending).map f := by
  intro fuel
  induction fuel with
  | zero => intro _ _ h; exact absurd h (Nat.not_lt_zero _)
  | succ fuel ih =>
    intro pending inflight h
    rcases hsc : inflight ++ pending.take (n - inflight.length) with _ | ⟨b, rest⟩
    · have hinf : inflight = [] := (List.append_eq_nil.mp hsc).1
      have htake : pending.take (n - inflight.length) = [] := (List.append_eq_nil.mp hsc).2
      have hpend : pending = [] := by
        cases pending with
        | nil => rfl
        | cons p ps =>
          rw [hinf] at htake
          simp only [List.length_nil, Nat.sub_zero] at htake
          rcases n with _ | n
          · exact absurd hn (by omega)
          · simp [List.take_succ_cons] at htake
      subst hinf hpend
      simp [runBUGo, hsc]
    · have hrun : runBUGo f n (fuel + 1) [] pending inflight
          = f ((b :: rest).get ⟨(List.nil (α := Nat)).headD 0 % (b :: rest).length,
                Nat.mod_lt _ (Nat.succ_pos _)⟩)
            :: runBUGo f n fuel (List.nil (α := Nat)).tail (pending.drop (n - inflight.length))
                ((b :: rest).eraseIdx ((List.nil (α := Nat)).headD 0 % (b :: rest).length)) := by
        rw [runBUGo, hsc]
      have hzero : (List.nil (α := Nat)).headD 0 % (b :: rest).length = 0 := by simp
      rw [hrun]
      simp only [hzero, List.tail_nil, List.get, List.eraseIdx]
      have hIH := ih (pending.drop (n - inflight.length)) rest (by
        have h3 : (pending.take (n - inflight.length)).length
            = min (n - inflight.length) pending.length := List.length_take _ _
        have hlen : (b :: rest).length
            = inflight.length + (pending.take (n - inflight.length)).length := by
          rw [← hsc]; simp
        have h2 : (pending.drop (n - inflight.length)).length
            = pending.length - (n - inflight.length) := List.length_drop _ _
        simp only [List.length_cons] at hlen
        omega)
      rw [hIH]
      have heq : (b :: rest) ++ pending.drop (n - inflight.length) = inflight ++ pending := by
        rw [← hsc, List.append_assoc, List.take_append_drop]
      rw [← heq]
      simp

theorem lookupProfile_insert_self {P : Type} (k : List Char) (v : P)
    (l : List (List Char × P)) :
    lookupProfile k (insertProfile k v l) = some v := by
  induction l with
  | nil => simp [insertProfile, lookupProfile]
  | cons kv rest ih =>
    rcases kv with ⟨k', v'⟩
    by_cases h : k = k'
    · simp [insertProfile, h, lookupProfile]
    · simp [insertProfile, h, lookupProfile, ih]

theorem lookupProfile_insert_ne {P : Type} (k k' : List Char) (v : P)
    (l : List (List Char × P)) (h : k' ≠ k) :
    lookupProfile k' (insertProfile k v l) = lookupProfile k' l := by
  induction l with
  | nil => simp only [insertProfile, lookupProfile, if_neg h]
  | cons kv rest ih =>
    rcases kv with ⟨k0, v0⟩
    by_cases h0 : k = k0
    · subst h0
      simp only [insertProfile, if_pos rfl, lookupProfile, if_neg h]
    · by_cases h1 : k' = k0
      · simp only [insertProfile, if_neg h0, lookupProfile, if_pos h1]
      · simp only [insertProfile, if_neg h0, lookupProfile, if_neg h1, ih]

theorem length_insertProfile {P : Type} (k : List Char) (v : P)
    (l : List (List Char × P)) :
    (insertProfile k v l).length
      = if k ∈ l.map Prod.fst then l.length else l.length + 1 := by
  induction l with
  | nil =>
    rw [List.map_nil, List.length_nil, if_neg (List.not_mem_nil k)]
    rfl
  | cons kv rest ih =>
    rcases kv with ⟨k0, v0⟩
    rw [List.map_cons]
    by_cases h0 : k = k0
    · subst h0
      have h1 : insertProfile k v ((k, v0) :: rest) = (k, v) :: rest := by
        show (if k = k then (k, v) :: rest else (k, v0) :: insertProfile k v rest)
          = (k, v) :: rest
        rw [if_pos rfl]
      rw [h1, List.length_cons, List.length_cons,
        if_pos (List.mem_cons.mpr (Or.inl rfl))]
    · have h1 : insertProfile k v ((k0, v0) :: rest)
          = (k0, v0) :: insertProfile k v rest := by
        show (if k = k0 then (k, v) :: rest else (k0, v0) :: insertProfile k v rest)
          = (k0, v0) :: insertProfile k v rest
        rw [if_neg h0]
      rw [h1, List.length_cons, ih, List.length_cons]
      by_cases hm : k ∈ rest.map Prod.fst
      · rw [if_pos hm, if_pos (List.mem_cons.mpr (Or.inr hm))]
      · rw [if_neg hm,
          if_neg (fun hor => (List.mem_cons.mp hor).elim (fun h1 => h0 h1) hm)]

/-! ## Claim theorems -/

/-- C5: resolution of a dependency coordinate is a pure, deterministic
function (the embedding is a Lean function, so determinism is by
construction): a coordinate with fewer than two `:` (fewer than three
parts) fails to parse; a well-formed `g:a:v` resolves to the relative path
`g-with-dots-replaced/a/v/a-v.jar`; the remote URL is always
`maven_url` of that path, which is the Quilt mirror exactly when the path
starts with `org/quiltmc` and the (distinct) Fabric mirror otherwise. -/
theorem resolve_library_spec :
    (∀ s : List Char, s.count ':' < 2 → split_artifact s = none) ∧
    (∀ g a v : List Char, ':' ∉ g → ':' ∉ a →
      split_artifact (g ++ ':' :: (a ++ ':' :: v))
        = some (g.map dotToSlash ++ '/' :: a ++ '/' :: v ++ '/' :: a ++ '-' :: v
            ++ ".jar".data)) ∧
    (∀ s p u, resolve_library s = some (p, u) → u = maven_url p) ∧
    (∀ p : List Char, ("org/quiltmc".data.isPrefixOf p) = true →
      maven_url p = QUILT_MAVEN ++ '/' :: p) ∧
    (∀ p : List Char, ("org/quiltmc".data.isPrefixOf p) = false →
      maven_url p = FABRIC_MAVEN ++ '/' :: p) ∧
    (∀ p : List Char, QUILT_MAVEN ++ '/' :: p ≠ FABRIC_MAVEN ++ '/' :: p) := by
  refine ⟨?_, ?_, ?_, ?_, ?_, ?_⟩
  · intro s hcount
    cases h1 : splitFirst ':' s with
    | none => simp [split_artifact, h1]
    | some gr =>
      rcases gr with ⟨g, rest⟩
      obtain ⟨hs, _⟩ := splitFirst_eq_some_decomp ':' s g rest h1
      cases h2 : splitFirst ':' rest with
      | none => simp [split_artifact, h1, h2]
      | some nv =>
        rcases nv with ⟨nm, ver⟩
        obtain ⟨hr, _⟩ := splitFirst_eq_some_decomp ':' rest nm ver h2
        exfalso
        rw [hs, hr] at hcount
        simp [List.count_append, List.count_cons] at hcount
        omega
  · intro g a v hg ha
    have h1 : splitFirst ':' (g ++ ':' :: (a ++ ':' :: v)) = some (g, a ++ ':' :: v) :=
      splitFirst_append ':' g _ hg
    have h2 : splitFirst ':' (a ++ ':' :: v) = some (a, v) := splitFirst_append ':' a v ha
    unfold split_artifact
    rw [h1]
    simp only [h2]
  · intro s p u h
    unfold resolve_library at h
    cases hs : split_artifact s with
    | none => rw [hs] at h; simp at h
    | some q =>
      rw [hs] at h
      have h' : some (q, maven_url q) = some (p, u) := h
      have h2 := Option.some.inj h'
      have hp : q = p := congrArg Prod.fst h2
      have hu : maven_url q = u := congrArg Prod.snd h2
      rw [← hp]
      exact hu.symm
  · intro p h; simp [maven_url, h]
  · intro p h; simp [maven_url, h]
  · intro p h
    have hlen := congrArg List.length h
    have hq : QUILT_MAVEN.length = 44 := by decide
    have hf : FABRIC_MAVEN.length = 27 := by decide
    simp only [List.length_append, List.length_cons, hq, hf] at hlen
    omega

/-- C5 witness: the Quilt loader coordinate resolves to the expected
relative path. -/
theorem resolve_library_spec_witness :
    ':' ∉ "org.quiltmc".data ∧ ':' ∉ "quilt-loader".data ∧
    split_artifact ("org.quiltmc".data ++ ':' :: ("quilt-loader".data ++ ':' :: "1.0".data))
      = some ("org.quiltmc".data.map dotToSlash ++ '/' :: "quilt-loader".data
          ++ '/' :: "1.0".data ++ '/' :: "quilt-loader".data ++ '-' :: "1.0".data
          ++ ".jar".data) :=
  ⟨by decide, by decide,
    resolve_library_spec.2.1 "org.quiltmc".data "quilt-loader".data "1.0".data
      (by decide) (by decide)⟩

/-- C4 counterexample: a coordinate whose artifact name is exactly
`hashed` but whose group is not `org.quiltmc` survives the filter, so the
claim that no coordinate with artifact name `hashed` remains is false. -/
theorem filter_libraries_foreign_hashed_cex :
    artifact_name ("com.example:hashed:1.0".data) = some ("hashed".data) ∧
    filter_libraries [⟨"com.example:hashed:1.0".data, []⟩]
      = [⟨"com.example:hashed:1.0".data, []⟩] :=
  ⟨by decide, by decide⟩

/-- C4 (amended): the filter removes exactly the libraries whose full
coordinate starts with `org.quiltmc:hashed` and keeps every other library;
in particular `[org.quiltmc:hashed:1.0, org.quiltmc:quilt-loader:2.0]`
filters to just the `quilt-loader` coordinate. -/
theorem filter_libraries_spec :
    (∀ (libs : List Library), ∀ l ∈ filter_libraries libs,
      (("org.quiltmc:hashed".data).isPrefixOf l.name) = false) ∧
    (∀ (libs : List Library), ∀ l ∈ libs,
      (("org.quiltmc:hashed".data).isPrefixOf l.name) = false →
        l ∈ filter_libraries libs) ∧
    filter_libraries [⟨"org.quiltmc:hashed:1.0".data, []⟩,
        ⟨"org.quiltmc:quilt-loader:2.0".data, []⟩]
      = [⟨"org.quiltmc:quilt-loader:2.0".data, []⟩] ∧
    artifact_name ("org.quiltmc:quilt-loader:2.0".data) = some ("quilt-loader".data) := by
  refine ⟨?_, ?_, by decide, by decide⟩
  · intro libs l hl
    have h := (List.mem_filter.mp hl).2
    simpa using h
  · intro libs l hl hpref
    exact List.mem_filter.mpr ⟨hl, by simp [hpref]⟩

/-- C6: a cache hit returns exactly the existing local path with an empty
effect trace — no directory creation, no network request, no write. -/
theorem download_library_cache_hit (fs : List Char → Bool)
    (net : List Char → Option (List Nat)) (dir : List Char) (lib : Library)
    (raw_path : List Char) (hsplit : split_artifact lib.name = some raw_path)
    (hfs : fs (pathJoin dir raw_path) = true) :
    download_library fs net dir lib = (some (pathJoin dir raw_path), []) := by
  simp [download_library, hsplit, hfs]

/-- C6 witness: the cache-hit theorem applied to a concrete library whose
resolved path already exists on the oracle filesystem. -/
theorem download_library_cache_hit_witness :
    split_artifact cacheLib.name = some cacheRaw ∧
    cacheFs (pathJoin cacheDir cacheRaw) = true ∧
    download_library cacheFs cacheNet cacheDir cacheLib
      = (some (pathJoin cacheDir cacheRaw), []) :=
  ⟨by decide, by decide,
    download_library_cache_hit cacheFs cacheNet cacheDir cacheLib cacheRaw
      (by decide) (by decide)⟩

/-- C7: when the destination directory does not exist the facade returns a
validation error with an empty effect trace, independently of which
installer would have run; when it exists the facade dispatches to exactly
the installer selected by the loader-variant tag, passing the request
through unchanged. -/
theorem loaders_install_spec :
    (∀ (fs : List Char → Bool) (loader : LoaderVersion) (side : Side)
        (dir : List Char) (mc : MinecraftVersion) (generate : Bool)
        (q : Install QuiltVersion → Except Unit Unit × List FsEffect),
      fs dir = false →
        loaders_install fs loader side dir mc generate q = (Except.error (), [])) ∧
    (∀ (fs : List Char → Bool) (v : FabricVersion) (side : Side) (dir : List Char)
        (mc : MinecraftVersion) (generate : Bool)
        (q : Install QuiltVersion → Except Unit Unit × List FsEffect),
      fs dir = true →
        loaders_install fs (LoaderVersion.fabric v) side dir mc generate q
          = fabric_install ⟨v, side, dir, mc, generate⟩) ∧
    (∀ (fs : List Char → Bool) (b : Bool) (side : Side) (dir : List Char)
        (mc : MinecraftVersion) (generate : Bool)
        (q : Install QuiltVersion → Except Unit Unit × List FsEffect),
      fs dir = true →
        loaders_install fs (LoaderVersion.forge b) side dir mc generate q
          = forge_install ⟨b, side, dir, mc, generate⟩) ∧
    (∀ (fs : List Char → Bool) (v : QuiltVersion) (side : Side) (dir : List Char)
        (mc : MinecraftVersion) (generate : Bool)
        (q : Install QuiltVersion → Except Unit Unit × List FsEffect),
      fs dir = true →
        loaders_install fs (LoaderVersion.quilt v) side dir mc generate q
          = q ⟨v, side, dir, mc, generate⟩) := by
  refine ⟨?_, ?_, ?_, ?_⟩ <;>
    · intro fs x side dir mc generate q h
      simp [loaders_install, h]

/-- C10: with an existing destination, the Fabric and Forge install paths
both succeed immediately with an empty effect trace — no network request
and no filesystem write. -/
theorem fabric_forge_install_stubs :
    (∀ (fs : List Char → Bool) (v : FabricVersion) (side : Side) (dir : List Char)
        (mc : MinecraftVersion) (generate : Bool)
        (q : Install QuiltVersion → Except Unit Unit × List FsEffect),
      fs dir = true →
        loaders_install fs (LoaderVersion.fabric v) side dir mc generate q
          = (Except.ok (), [])) ∧
    (∀ (fs : List Char → Bool) (b : Bool) (side : Side) (dir : List Char)
        (mc : MinecraftVersion) (generate : Bool)
        (q : Install QuiltVersion → Except Unit Unit × List FsEffect),
      fs dir = true →
        loaders_install fs (LoaderVersion.forge b) side dir mc generate q
          = (Except.ok (), [])) := by
  refine ⟨?_, ?_⟩ <;>
    · intro fs x side dir mc generate q h
      simp [loaders_install, h, fabric_install, forge_install]

/-- C8: patching the registry inserts or overwrites exactly the entry
under the computed profile id: the settings value, the schema version and
every other entry are unchanged, and the entry count is N when the id was
present and N+1 when it was not. -/
theorem generate_profile_patch_spec {P S : Type} (reg : LaunchProfiles P S)
    (k : List Char) (p : P) :
    (generate_profile_patch reg k p).settings = reg.settings ∧
    (generate_profile_patch reg k p).version = reg.version ∧
    lookupProfile k (generate_profile_patch reg k p).profiles = some p ∧
    (∀ k', k' ≠ k → lookupProfile k' (generate_profile_patch reg k p).profiles
        = lookupProfile k' reg.profiles) ∧
    (generate_profile_patch reg k p).profiles.length
      = (if k ∈ reg.profiles.map Prod.fst then reg.profiles.length
          else reg.profiles.length + 1) := by
  refine ⟨rfl, rfl, ?_, ?_, ?_⟩
  · exact lookupProfile_insert_self k p reg.profiles
  · intro k' hk
    exact lookupProfile_insert_ne k k' p reg.profiles hk
  · exact length_insertProfile k p reg.profiles

/-- C2 counterexample: the wrapping step is not total.  With an empty
library list the `Class-Path: ` string is 12 bytes and `split_at(72)`
panics (modelled as `none`); with a long-enough classpath whose byte 72
falls inside a multi-byte character it panics as well. -/
theorem wrap_class_path_panics_cex :
    wrap_class_path (class_path_line []) = none ∧
    72 ≤ multiByteClassPath.length ∧
    wrap_class_path multiByteClassPath = none :=
  ⟨by decide, by decide, by decide⟩

/-- C2 (amended): the wrapping step succeeds exactly when byte index 72 is
a character boundary of the `Class-Path: ` string; in particular every
classpath string shorter than 72 bytes makes it fail (the `split_at(72)`
panic). -/
theorem wrap_class_path_succeeds_iff_boundary :
    (∀ cp : List Nat, (wrap_class_path cp).isSome = is_char_boundary cp 72) ∧
    (∀ cp : List Nat, cp.length < 72 → wrap_class_path cp = none) := by
  constructor
  · intro cp
    unfold wrap_class_path string_split_at
    by_cases h : is_char_boundary cp 72 = true
    · rw [if_pos h, h]
      rfl
    · rw [if_neg h]
      simp only [Bool.not_eq_true] at h
      rw [h]
      rfl
  · intro cp h
    have hbf : is_char_boundary cp 72 = false := by
      unfold is_char_boundary
      rw [if_neg (by omega : ¬ (72 = 0)), if_neg (by omega : ¬ (72 = cp.length)),
        dif_neg (by omega : ¬ (72 < cp.length))]
    unfold wrap_class_path string_split_at
    rw [if_neg (by simp [hbf])]

/-- C3: for an ASCII classpath whose `Class-Path: ` string is at least 72
bytes long, the first emitted line is exactly the first 72 characters,
every later line is a single leading space followed by an at-most-71-byte
chunk of the remainder, and stripping the wrap artifacts reconstructs the
unwrapped string exactly. -/
theorem wrap_class_path_ascii_spec (cp : List Nat) (hA : ∀ b ∈ cp, b < 128)
    (h72 : 72 ≤ cp.length) :
    wrap_class_path cp
        = some (cp.take 72 :: (chunks71 (cp.drop 72)).map (fun c => 32 :: c)) ∧
    (cp.take 72).length = 72 ∧
    (∀ c ∈ chunks71 (cp.drop 72), c.length ≤ 71) ∧
    cp.take 72 ++ (chunks71 (cp.drop 72)).flatten = cp := by
  have hb : is_char_boundary cp 72 = true := by
    unfold is_char_boundary
    rcases eq_or_lt_of_le h72 with heq | hlt
    · rw [if_neg (by omega : ¬ (72 = 0)), if_pos heq]
    · rw [if_neg (by omega : ¬ (72 = 0)), if_neg (by omega : ¬ (72 = cp.length)),
        dif_pos hlt]
      have hlt128 : cp.get ⟨72, hlt⟩ < 128 := hA _ (List.get_mem cp 72 hlt)
      have hcont : isUtf8Cont (cp.get ⟨72, hlt⟩) = false := by
        unfold isUtf8Cont
        simp only [decide_eq_false_iff_not, not_and, not_lt]
        omega
      rw [hcont]
      rfl
  refine ⟨?_, ?_, ?_, ?_⟩
  · have hsplit : string_split_at cp 72 = some (cp.take 72, cp.drop 72) := by
      unfold string_split_at
      rw [if_pos hb]
    unfold wrap_class_path
    rw [hsplit]
    simp only [Option.some_inj, List.cons.injEq, true_and]
    apply List.map_congr_left
    intro c hc
    have hlossy : utf8Lossy c = c := by
      apply utf8Lossy_ascii
      intro x hx
      have hxin : x ∈ (chunks71 (cp.drop 72)).flatten := List.mem_flatten.mpr ⟨c, hc, hx⟩
      rw [chunks71_flatten] at hxin
      exact hA x (List.drop_subset _ _ hxin)
    rw [hlossy]
  · rw [List.length_take]
    omega
  · exact chunks71_length_le _
  · rw [chunks71_flatten, List.take_append_drop]

set_option maxRecDepth 20000 in
/-- C3 witness: the ASCII wrapping theorem applied to the 200-byte literal
classpath. -/
theorem wrap_class_path_ascii_spec_witness :
    (∀ b ∈ exampleClassPath, b < 128) ∧ 72 ≤ exampleClassPath.length ∧
    (wrap_class_path exampleClassPath
        = some (exampleClassPath.take 72
            :: (chunks71 (exampleClassPath.drop 72)).map (fun c => 32 :: c)) ∧
      (exampleClassPath.take 72).length = 72 ∧
      (∀ c ∈ chunks71 (exampleClassPath.drop 72), c.length ≤ 71) ∧
      exampleClassPath.take 72 ++ (chunks71 (exampleClassPath.drop 72)).flatten
        = exampleClassPath) :=
  ⟨by decide, by decide, wrap_class_path_ascii_spec exampleClassPath (by decide) (by decide)⟩

/-- C9: when the old profile directory exists and the profile fetch (or
its decode) fails, the client install returns an error having already
deleted the old directory, recreated it, created the placeholder jar and
the empty json file, and issued the GET — and nothing else: the old
profile is gone and no profile document was written. -/
theorem install_client_destroys_before_fetch (fs : List Char → Bool)
    (i : Install QuiltVersion)
    (hdir : fs (pathJoin (pathJoin i.dir "versions".data)
        (quilt_profile_name i.version i.minecraft)) = true) :
    install_client fs none i
      = (Except.error (),
        [FsEffect.removeDirAll (pathJoin (pathJoin i.dir "versions".data)
            (quilt_profile_name i.version i.minecraft)),
          FsEffect.createDirAll (pathJoin (pathJoin i.dir "versions".data)
            (quilt_profile_name i.version i.minecraft)),
          FsEffect.createFile (pathJoin (pathJoin (pathJoin i.dir "versions".data)
              (quilt_profile_name i.version i.minecraft))
            (quilt_profile_name i.version i.minecraft ++ ".jar".data)),
          FsEffect.createFile (pathJoin (pathJoin (pathJoin i.dir "versions".data)
              (quilt_profile_name i.version i.minecraft))
            (quilt_profile_name i.version i.minecraft ++ ".json".data)),
          FsEffect.httpGet (client_profile_url i.minecraft i.version)]) := by
  simp [install_client, hdir]

/-- C9 witness: the non-atomicity theorem applied to a concrete install
request over a filesystem on which the old profile directory exists. -/
theorem install_client_destroys_before_fetch_witness :
    clientFs (pathJoin (pathJoin clientInstall.dir "versions".data)
        (quilt_profile_name clientInstall.version clientInstall.minecraft)) = true ∧
    install_client clientFs none clientInstall
      = (Except.error (),
        [FsEffect.removeDirAll (pathJoin (pathJoin clientInstall.dir "versions".data)
            (quilt_profile_name clientInstall.version clientInstall.minecraft)),
          FsEffect.createDirAll (pathJoin (pathJoin clientInstall.dir "versions".data)
            (quilt_profile_name clientInstall.version clientInstall.minecraft)),
          FsEffect.createFile (pathJoin (pathJoin (pathJoin clientInstall.dir "versions".data)
              (quilt_profile_name clientInstall.version clientInstall.minecraft))
            (quilt_profile_name clientInstall.version clientInstall.minecraft ++ ".jar".data)),
          FsEffect.createFile (pathJoin (pathJoin (pathJoin clientInstall.dir "versions".data)
              (quilt_profile_name clientInstall.version clientInstall.minecraft))
            (quilt_profile_name clientInstall.version clientInstall.minecraft ++ ".json".data)),
          FsEffect.httpGet (client_profile_url clientInstall.minecraft clientInstall.version)]) :=
  ⟨by decide, install_client_destroys_before_fetch clientFs clientInstall (by decide)⟩

/-- C1 counterexample: under a completion schedule in which the second
fetch finishes first, the downloader's output is the completion order, not
the input order. -/
theorem buffer_unordered_completion_order_cex :
    buffer_unordered 8 dlPure [libA, libB] [1] = [dlPure libB, dlPure libA] ∧
    buffer_unordered 8 dlPure [libA, libB] [1] ≠ [libA, libB].map dlPure := by
  constructor
  · decide
  · decide

/-- C1 (amended): the downloader's output is the per-item results in
completion order: for every schedule it is a permutation of the input
sequence's results (each artifact's path appears exactly once), and it
equals the input order when the fetches complete in input order (the
first-in-first-out schedule), but not for every schedule. -/
theorem buffer_unordered_order_spec {α β : Type} (n : Nat) (f : α → β)
    (xs : List α) (sched : List Nat) (hn : 0 < n) :
    (buffer_unordered n f xs sched).Perm (xs.map f) ∧
    buffer_unordered n f xs [] = xs.map f := by
  constructor
  · have h := runBUGo_perm f n hn (xs.length + 1) sched xs [] (by simp)
    simpa [buffer_unordered] using h
  · have h := runBUGo_fifo f n hn (xs.length + 1) xs [] (by simp)
    simpa [buffer_unordered] using h

/-- C1 witness: the permutation theorem applied at window 8 to two
concrete artifacts under the swapped completion schedule. -/
theorem buffer_unordered_order_spec_witness :
    0 < 8 ∧
    ((buffer_unordered 8 dlPure [libA, libB] [1]).Perm ([libA, libB].map dlPure) ∧
      buffer_unordered 8 dlPure [libA, libB] [] = [libA, libB].map dlPure) :=
  ⟨by decide, buffer_unordered_order_spec 8 dlPure [libA, libB] [1] (by decide)⟩

end AnyMc
